import Mathlib

/-
Verification of the RecordStore component of the Simple Notes application
(`app.js`).  The storage layer (localStorage / sessionStorage) is modelled as
an association list of key/value pairs whose enumeration order is the list
order; the JSON codec is modelled as an injective embedding of records into
stored values; clock readings (Date.now()) and the random id suffix
(Math.random().toString(36).slice(2, 8)) are explicit parameters of the
operations that consume them.
-/

namespace SNotes

/-- A note record, as created by addNote: identity, content and the two
timestamps.  Timestamps are the natural-number milliseconds of Date.now(). -/
structure Note where
  id : String
  title : String
  body : String
  createdAt : Nat
  updatedAt : Nat
deriving DecidableEq

/-- One stored value of a Web Storage backend.  The source stores strings:
JSON.stringify(note) for the app's own writes, while foreign or corrupt
entries hold arbitrary text.  The JSON codec is modelled as an injective
embedding: json n stands for the string JSON.stringify(n), and raw s stands
for a string that is not the serialization of any record (JSON.parse throws
on it, or it is empty/falsy). -/
inductive Val where
  | json : Note → Val
  | raw : String → Val
deriving DecidableEq

/-- JSON.parse inside loadNote's try/catch: a serialized record parses back,
anything else yields nothing. -/
def parseNote : Val → Option Note
  | Val.json n => some n
  | Val.raw _ => none

/-- A Web Storage backend: keys with their values, in enumeration order
(the order that s.key(i) walks). -/
abbrev Store := List (String × Val)

/-- Storage getItem: the value at key k, if present. -/
def getItem (s : Store) (k : String) : Option Val :=
  (s.find? (fun kv => kv.1 == k)).map (fun kv => kv.2)

/-- Storage setItem: overwrite the value of an existing key in place, or
append a fresh key at the end of the enumeration. -/
def setItem (s : Store) (k : String) (v : Val) : Store :=
  if s.any (fun kv => kv.1 == k) then
    s.map (fun kv => if kv.1 == k then (k, v) else kv)
  else s ++ [(k, v)]

/-- Storage removeItem: drop the key (a no-op when the key is absent). -/
def removeItem (s : Store) (k : String) : Store :=
  s.filter (fun kv => kv.1 != k)

/-- The whole storage state of the page: the two backends plus the
storeType flag ('local' | 'session') that the store-picker maintains. -/
structure AppState where
  localStore : Store
  sessionStore : Store
  storeType : String
deriving DecidableEq

/-- getStore() from the source: storeType === 'session' ? sessionStorage
: localStorage. -/
def getStore (st : AppState) : Store :=
  if st.storeType = "session" then st.sessionStore else st.localStore

/-- Writing back the backend that getStore selected. -/
def putStore (st : AppState) (s : Store) : AppState :=
  if st.storeType = "session" then { st with sessionStore := s }
  else { st with localStore := s }

/-- The backend getStore did not select. -/
def otherStore (st : AppState) : Store :=
  if st.storeType = "session" then st.localStore else st.sessionStore

/-- STORAGE_PREFIX in the source: each note is saved as sn:note:<id>. -/
def NS : String := "sn:note:"

/-- The source's key.startsWith(STORAGE_PREFIX) test. -/
def hasNS (k : String) : Bool := NS.data.isPrefixOf k.data

/-- The source's key.slice(n): drop the first n characters. -/
def strDrop (k : String) (n : Nat) : String := String.mk (k.data.drop n)

/-- The canonical base-36 digit characters used by Number.prototype.toString(36). -/
def digitChars : List Char := "0123456789abcdefghijklmnopqrstuvwxyz".data

/-- The base-36 digit character for a value below 36. -/
def digit36 (d : Nat) : Char := digitChars.getD d '*'

/-- Base-36 digits of n, most significant first; fuel bounds the recursion
(n < 36 ^ fuel suffices, and the branch on n < 36 stops in time). -/
def b36 (fuel n : Nat) : List Char :=
  match fuel with
  | 0 => []
  | fuel + 1 =>
    if n < 36 then [digit36 n] else b36 fuel (n / 36) ++ [digit36 (n % 36)]

/-- Date.now().toString(36) for a natural clock value. -/
def toB36 (n : Nat) : String := String.mk (b36 (n + 1) n)

/-- genId() from the source: Date.now().toString(36) + '-' + a random
suffix.  The clock reading and the suffix are explicit parameters. -/
def genId (now : Nat) (rnd : String) : String := toB36 now ++ "-" ++ rnd

/-- JS x || d for a string-or-undefined value: undefined (none) and the
empty string are falsy and give the default. -/
def jsOr (x : Option String) (d : String) : String :=
  match x with
  | none => d
  | some s => if s = "" then d else s

/-- saveNote(note): stamp updatedAt with now, write the serialized note under
STORAGE_PREFIX + note.id in the current backend, return the saved note. -/
def saveNote (st : AppState) (note : Note) (now : Nat) : Note × AppState :=
  let note := { note with updatedAt := now }
  (note, putStore st (setItem (getStore st) (NS ++ note.id) (Val.json note)))

/-- loadNote(id): read STORAGE_PREFIX + id from the current backend; an absent
key gives nothing, and a value that fails to parse gives nothing (the source's
falsy check on the raw string and its try/catch around JSON.parse). -/
def loadNote (st : AppState) (id : String) : Option Note :=
  match getItem (getStore st) (NS ++ id) with
  | none => none
  | some v => parseNote v

/-- The fields object handed to addNote: title and body, either possibly
absent (undefined). -/
structure AddFields where
  title : Option String
  body : Option String

/-- addNote({title, body}) from the source: build the record with a generated
id, defaulted title and body, both timestamps at now, and save it. -/
def addNote (st : AppState) (f : AddFields) (now : Nat) (rnd : String) :
    Note × AppState :=
  let note : Note :=
    { id := genId now rnd
      title := jsOr f.title "Untitled"
      body := jsOr f.body ""
      createdAt := now
      updatedAt := now }
  saveNote st note now

/-- The fields object handed to updateNote.  Object.assign copies exactly the
attributes present on it; a none field is an attribute that is absent from the
object.  Attributes outside the record shape play no further role and are not
modelled. -/
structure UpdFields where
  id : Option String
  title : Option String
  body : Option String
  createdAt : Option Nat
  updatedAt : Option Nat

/-- Object.assign(note, fields) restricted to the record's attributes: every
attribute present on fields overwrites the note's, the rest stay. -/
def assignNote (n : Note) (f : UpdFields) : Note :=
  { id := f.id.getD n.id
    title := f.title.getD n.title
    body := f.body.getD n.body
    createdAt := f.createdAt.getD n.createdAt
    updatedAt := f.updatedAt.getD n.updatedAt }

/-- updateNote(id, fields): load, throw 'Note not found' if absent,
Object.assign the fields over the note, save.  The thrown error is modelled
as Except.error, paired with the unchanged state. -/
def updateNote (st : AppState) (id : String) (f : UpdFields) (now : Nat) :
    Except String Note × AppState :=
  match loadNote st id with
  | none => (Except.error "Note not found", st)
  | some note =>
    let r := saveNote st (assignNote note f) now
    (Except.ok r.1, r.2)

/-- deleteNote(id): remove STORAGE_PREFIX + id from the current backend. -/
def deleteNote (st : AppState) (id : String) : AppState :=
  putStore st (removeItem (getStore st) (NS ++ id))

/-- Insertion step of the stable sort: place n in front of the first element
whose updatedAt does not exceed it (so earlier-enumerated notes stay in front
of later ones on ties). -/
def insertNote (n : Note) : List Note → List Note
  | [] => [n]
  | m :: ms =>
    if m.updatedAt ≤ n.updatedAt then n :: m :: ms else m :: insertNote n ms

/-- The source's notes.sort((a, b) => b.updatedAt - a.updatedAt).
Array.prototype.sort is specified to be a stable sort consistent with the
comparator, and this insertion sort is exactly that stable descending sort. -/
def sortNotes (l : List Note) : List Note := l.foldr insertNote []

/-- The collection loop of listNotes(): walk every key of the current backend
in enumeration order, keep the namespaced ones, re-load each by the id sliced
out of its key, and keep those that load. -/
def collectNotes (st : AppState) : List Note :=
  (getStore st).filterMap
    (fun kv => if hasNS kv.1 then loadNote st (strDrop kv.1 NS.length) else none)

/-- listNotes() from the source: the collected notes, most recent first. -/
def listNotes (st : AppState) : List Note :=
  sortNotes (collectNotes st)

/-- The clearAllBtn handler's storage effect (after the user confirms):
collect every namespaced key of the current backend, then remove each
collected key. -/
def clearAll (st : AppState) : AppState :=
  let s := getStore st
  let toRemove := (s.filter (fun kv => hasNS kv.1)).map (fun kv => kv.1)
  putStore st (toRemove.foldl removeItem s)

/-- Test-harness action from the spec's corrupt-entry property: plant an
arbitrary non-record value under a namespaced key in the current backend. -/
def injectRaw (st : AppState) (k s : String) : AppState :=
  putStore st (setItem (getStore st) (NS ++ k) (Val.raw s))

/-- Every parsable entry of the current backend sits under the key derived
from its own id.  This is the shape the store's own writes always produce. -/
@[reducible]
def WellKeyed (st : AppState) : Prop :=
  ∀ kv ∈ getStore st, ((parseNote kv.2).all fun n => kv.1 == NS ++ n.id) = true

/-- Value of a base-36 digit string, most significant digit first (decoder
used only in the verification, to invert toB36). -/
def ofB36 (l : List Char) : Nat :=
  l.foldl (fun a c => a * 36 + digitChars.indexOf c) 0

/-- Decoder used only in the verification: split a generated id at its first
dash and read the base-36 time component back. -/
def decodeId (s : String) : Nat × String :=
  (ofB36 (s.data.takeWhile fun c => c != '-'),
   String.mk ((s.data.dropWhile fun c => c != '-').drop 1))

/-- Sample record: id a, tied timestamp. -/
def noteA : Note := { id := "a", title := "A", body := "", createdAt := 1, updatedAt := 5 }

/-- Sample record: id b, same updatedAt as noteA. -/
def noteB : Note := { id := "b", title := "B", body := "", createdAt := 2, updatedAt := 5 }

/-- Backend enumerating noteB before noteA. -/
def stTieBA : AppState :=
  { localStore := [(NS ++ "b", Val.json noteB), (NS ++ "a", Val.json noteA)]
    sessionStore := [], storeType := "local" }

/-- Backend enumerating noteA before noteB: same records as stTieBA. -/
def stTieAB : AppState :=
  { localStore := [(NS ++ "a", Val.json noteA), (NS ++ "b", Val.json noteB)]
    sessionStore := [], storeType := "local" }

/-- Empty stores, durable backend selected. -/
def stEmpty : AppState := { localStore := [], sessionStore := [], storeType := "local" }

/-- Sample record for the update scenarios. -/
def noteT : Note := { id := "i0", title := "t", body := "b", createdAt := 1, updatedAt := 1 }

/-- One well-keyed record in the durable backend, plus one foreign key and a
session-backend record, to observe framing. -/
def stOne : AppState :=
  { localStore := [("unrelated", Val.raw "keepme"), (NS ++ "i0", Val.json noteT)]
    sessionStore := [(NS ++ "s0", Val.json { id := "s0", title := "s", body := "", createdAt := 3, updatedAt := 3 })]
    storeType := "local" }

section Helpers

/-- Building a string from the data of a string gives it back. -/
theorem string_mk_data (s : String) : String.mk s.data = s := rfl

/-- Strings with equal character data are equal. -/
theorem data_inj {s t : String} (h : s.data = t.data) : s = t := by
  cases s
  cases t
  exact congrArg String.mk h

/-- Characterization of the boolean character-list inclusion test. -/
theorem isPre_iff : ∀ (l m : List Char),
    (l.isPrefixOf m = true) ↔ ∃ t : List Char, m = l ++ t
  | [], m => by simp [List.isPrefixOf]
  | a :: as, [] => by simp [List.isPrefixOf]
  | a :: as, b :: bs => by
    simp only [List.isPrefixOf, Bool.and_eq_true, beq_iff_eq, isPre_iff as bs,
      List.cons_append, List.cons.injEq]
    constructor
    · rintro ⟨rfl, t, rfl⟩
      exact ⟨t, rfl, rfl⟩
    · rintro ⟨t, rfl, rfl⟩
      exact ⟨rfl, t, rfl⟩

/-- Namespaced keys pass the hasNS test. -/
theorem hasNS_app (s : String) : hasNS (NS ++ s) = true := by
  unfold hasNS
  rw [isPre_iff]
  exact ⟨s.data, by simp⟩

/-- A key failing the hasNS test is no namespaced key. -/
theorem ns_app_ne {k : String} (h : hasNS k = false) (s : String) : NS ++ s ≠ k := by
  intro e
  rw [← e, hasNS_app] at h
  cases h

/-- Slicing the namespace marker off a namespaced key recovers the id. -/
theorem strDrop_app (s : String) : strDrop (NS ++ s) NS.length = s := by
  unfold strDrop
  have h1 : (NS ++ s).data = NS.data ++ s.data := by simp
  have h2 : NS.length = NS.data.length := rfl
  rw [h1, h2, List.drop_left]

/-- A key passing the hasNS test is the namespace marker plus its slice. -/
theorem hasNS_join {k : String} (h : hasNS k = true) : NS ++ strDrop k NS.length = k := by
  unfold hasNS at h
  rw [isPre_iff] at h
  obtain ⟨t, ht⟩ := h
  have hk : k = NS ++ String.mk t := by
    apply data_inj
    simpa using ht
  rw [hk, strDrop_app]

/-- Two namespaced keys with equal text carry equal ids. -/
theorem ns_app_inj {a b : String} (h : NS ++ a = NS ++ b) : a = b := by
  have hd : NS.data ++ a.data = NS.data ++ b.data := by
    simpa using congrArg String.data h
  have h1 := congrArg (List.drop NS.data.length) hd
  rw [List.drop_left, List.drop_left] at h1
  exact data_inj h1

/-- Every character emitted by the base-36 writer is a base-36 digit. -/
theorem mem_digitChars_of_b36 : ∀ (fuel n : Nat) (c : Char),
    c ∈ b36 fuel n → c ∈ digitChars := by
  intro fuel
  induction fuel with
  | zero =>
    intro n c h
    simp [b36] at h
  | succ fuel ih =>
    intro n c h
    have hd : ∀ d : Nat, d < 36 → digit36 d ∈ digitChars := by decide
    unfold b36 at h
    by_cases h36 : n < 36
    · rw [if_pos h36] at h
      simp at h
      subst h
      exact hd n h36
    · rw [if_neg h36] at h
      rcases List.mem_append.mp h with h | h
      · exact ih _ _ h
      · simp at h
        subst h
        exact hd _ (Nat.mod_lt _ (by omega))

/-- Reading the index of each digit back inverts one digit. -/
theorem indexOf_digit36 : ∀ d : Nat, d < 36 → digitChars.indexOf (digit36 d) = d := by
  decide

/-- Folding one more digit onto the decoded value. -/
theorem ofB36_append (l : List Char) (c : Char) :
    ofB36 (l ++ [c]) = ofB36 l * 36 + digitChars.indexOf c := by
  unfold ofB36
  rw [List.foldl_append]
  rfl

/-- The decoder inverts the base-36 writer whenever the fuel suffices. -/
theorem ofB36_b36 : ∀ (fuel n : Nat), n < 36 ^ fuel → ofB36 (b36 fuel n) = n := by
  intro fuel
  induction fuel with
  | zero =>
    intro n h
    simp at h
    simp [h, b36, ofB36]
  | succ fuel ih =>
    intro n h
    unfold b36
    by_cases h36 : n < 36
    · rw [if_pos h36]
      have : ofB36 [digit36 n] = digitChars.indexOf (digit36 n) := by
        simp [ofB36]
      rw [this, indexOf_digit36 n h36]
    · rw [if_neg h36]
      rw [ofB36_append]
      have hdiv : n / 36 < 36 ^ fuel := by
        rw [Nat.div_lt_iff_lt_mul (by omega : 0 < 36)]
        calc n < 36 ^ (fuel + 1) := h
          _ = 36 ^ fuel * 36 := Nat.pow_succ 36 fuel
      rw [ih _ hdiv, indexOf_digit36 _ (Nat.mod_lt _ (by omega))]
      omega

/-- Any natural number is below the fuel bound used by toB36. -/
theorem lt_pow36 : ∀ n : Nat, n < 36 ^ (n + 1) := by
  intro n
  induction n with
  | zero => omega
  | succ n ih =>
    have hp : 0 < 36 ^ (n + 1) := Nat.pos_pow_of_pos _ (by omega)
    have hstep : 36 ^ (n + 1 + 1) = 36 ^ (n + 1) * 36 := Nat.pow_succ 36 (n + 1)
    omega

/-- The base-36 writer never emits a dash. -/
theorem b36_no_dash (fuel n : Nat) (c : Char) (h : c ∈ b36 fuel n) :
    (c != '-') = true := by
  have hm := mem_digitChars_of_b36 fuel n c h
  have hall : ∀ c ∈ digitChars, (c != '-') = true := by decide
  exact hall c hm

/-- Scanning up to the first dash of a dash-free block recovers the block. -/
theorem takeWhile_dash : ∀ (A : List Char), (∀ c ∈ A, (c != '-') = true) →
    ∀ B : List Char, (A ++ '-' :: B).takeWhile (fun c => c != '-') = A
  | [], _, B => by simp [List.takeWhile]
  | a :: as, h, B => by
    simp only [List.cons_append, List.takeWhile_cons]
    rw [h a (by simp)]
    simp only [if_true]
    rw [takeWhile_dash as (fun c hc => h c (by simp [hc])) B]

/-- Scanning past a dash-free block stops at the dash. -/
theorem dropWhile_dash : ∀ (A : List Char), (∀ c ∈ A, (c != '-') = true) →
    ∀ B : List Char, (A ++ '-' :: B).dropWhile (fun c => c != '-') = '-' :: B
  | [], _, B => by simp [List.dropWhile]
  | a :: as, h, B => by
    simp only [List.cons_append, List.dropWhile_cons]
    rw [h a (by simp)]
    simp only [if_true]
    exact dropWhile_dash as (fun c hc => h c (by simp [hc])) B

/-- Decoding a generated id recovers the clock value and the suffix. -/
theorem decodeId_genId (now : Nat) (rnd : String) : decodeId (genId now rnd) = (now, rnd) := by
  unfold decodeId genId toB36
  have hdata : (String.mk (b36 (now + 1) now) ++ "-" ++ rnd).data
      = b36 (now + 1) now ++ '-' :: rnd.data := by
    simp
  rw [hdata]
  rw [takeWhile_dash _ (b36_no_dash (now + 1) now) rnd.data,
    dropWhile_dash _ (b36_no_dash (now + 1) now) rnd.data]
  rw [ofB36_b36 _ _ (lt_pow36 now)]
  simp

/-- Two generated ids coincide only when both the clock reading and the
random suffix coincide. -/
theorem genId_inj {n1 n2 : Nat} {r1 r2 : String} (h : genId n1 r1 = genId n2 r2) :
    n1 = n2 ∧ r1 = r2 := by
  have hde := congrArg decodeId h
  rw [decodeId_genId, decodeId_genId] at hde
  exact ⟨congrArg Prod.fst hde, congrArg Prod.snd hde⟩

/-- Unfolding one step of the search over a store. -/
theorem find?_cons_eq (p : String × Val → Bool) (a : String × Val) (l : List (String × Val)) :
    List.find? p (a :: l) = if p a = true then some a else List.find? p l := by
  cases h : p a
  · simp [List.find?, h]
  · simp [List.find?, h]

/-- Searching a filtered store finds the same entry when the search predicate
entails the filtering predicate. -/
theorem find?_filter_of_imp (p q : String × Val → Bool) :
    ∀ s : Store, (∀ x, p x = true → q x = true) →
    (s.filter q).find? p = s.find? p
  | [], _ => rfl
  | kv :: s, h => by
    cases hq : q kv
    · have hp : p kv = false := by
        cases hpc : p kv
        · rfl
        · rw [h kv hpc] at hq
          cases hq
      rw [List.filter_cons_of_neg (by simp [hq]), List.find?_cons_of_neg _ (by simp [hp])]
      exact find?_filter_of_imp p q s h
    · rw [List.filter_cons_of_pos (by simp [hq])]
      cases hp : p kv
      · rw [List.find?_cons_of_neg _ (by simp [hp]), List.find?_cons_of_neg _ (by simp [hp])]
        exact find?_filter_of_imp p q s h
      · rw [List.find?_cons_of_pos _ hp, List.find?_cons_of_pos _ hp]

/-- Replacing the value of a present key puts the new pair where the search
finds it. -/
theorem find?_map_set (k : String) (v : Val) : ∀ s : Store,
    s.any (fun kv => kv.1 == k) = true →
    ((s.map fun kv => if kv.1 == k then (k, v) else kv).find? fun kv => kv.1 == k)
      = some (k, v)
  | [], h => by simp at h
  | kv :: s, h => by
    cases hk : (kv.1 == k)
    · simp only [List.map_cons, hk, Bool.false_eq_true, if_false]
      rw [List.find?_cons_of_neg _ (by simp [hk])]
      apply find?_map_set k v s
      simpa [List.any_cons, hk] using h
    · simp only [List.map_cons, hk, if_true]
      rw [List.find?_cons_of_pos]
      simp

/-- Reading back the key just written gives the value just written. -/
theorem getItem_setItem_self (s : Store) (k : String) (v : Val) :
    getItem (setItem s k v) k = some v := by
  unfold setItem
  cases hany : s.any (fun kv => kv.1 == k)
  · simp only [Bool.false_eq_true, if_false]
    unfold getItem
    rw [List.find?_append]
    have hnone : s.find? (fun kv => kv.1 == k) = none := by
      rw [List.find?_eq_none]
      intro x hx hpx
      have : s.any (fun kv => kv.1 == k) = true := List.any_eq_true.mpr ⟨x, hx, hpx⟩
      rw [this] at hany
      cases hany
    rw [hnone]
    simp [List.find?]
  · simp only [if_true]
    unfold getItem
    rw [find?_map_set k v s hany]
    rfl

/-- Writing one key leaves every other key's value unchanged. -/
theorem getItem_setItem_ne (s : Store) (k k' : String) (v : Val) (h : k' ≠ k) :
    getItem (setItem s k v) k' = getItem s k' := by
  unfold setItem
  cases hany : s.any (fun kv => kv.1 == k)
  · simp only [Bool.false_eq_true, if_false]
    unfold getItem
    rw [List.find?_append]
    have h2 : List.find? (fun kv => kv.1 == k') [(k, v)] = none := by
      have hkk : ((k, v).1 == k') = false := by
        simp only [beq_eq_false_iff_ne, ne_eq]
        exact fun e => h e.symm
      rw [find?_cons_eq, hkk]
      simp
    rw [h2]
    cases s.find? (fun kv => kv.1 == k') <;> rfl
  · simp only [if_true]
    unfold getItem
    congr 1
    clear hany
    induction s with
    | nil => rfl
    | cons kv s ih =>
      simp only [List.map_cons]
      cases hk : (kv.1 == k)
      · simp only [Bool.false_eq_true, if_false]
        rw [find?_cons_eq, find?_cons_eq]
        cases hp : (kv.1 == k')
        · simp only [Bool.false_eq_true, if_false]
          exact ih
        · simp only [if_true]
      · simp only [if_true]
        have hp : (kv.1 == k') = false := by
          have hkv : kv.1 = k := by simpa using hk
          simp only [hkv, beq_eq_false_iff_ne, ne_eq]
          exact fun e => h e.symm
        have hp2 : ((k, v).1 == k') = false := by
          simp only [beq_eq_false_iff_ne, ne_eq]
          exact fun e => h e.symm
        rw [find?_cons_eq, find?_cons_eq, hp, hp2]
        simp only [Bool.false_eq_true, if_false]
        exact ih

/-- Removing a key empties its slot. -/
theorem getItem_removeItem_self (s : Store) (k : String) :
    getItem (removeItem s k) k = none := by
  unfold removeItem getItem
  have : (s.filter fun kv => kv.1 != k).find? (fun kv => kv.1 == k) = none := by
    rw [List.find?_eq_none]
    intro x hx hpx
    have hmem := List.of_mem_filter hx
    simp at hmem hpx
    exact hmem hpx
  rw [this]
  rfl

/-- Removing one key leaves every other key's value unchanged. -/
theorem getItem_removeItem_ne (s : Store) (k k' : String) (h : k' ≠ k) :
    getItem (removeItem s k) k' = getItem s k' := by
  unfold removeItem getItem
  rw [find?_filter_of_imp]
  intro x hx
  have hx1 : x.1 = k' := by simpa using hx
  simp [hx1]
  exact h

/-- Reading the backend just written back gives it. -/
theorem getStore_putStore (st : AppState) (s : Store) : getStore (putStore st s) = s := by
  unfold getStore putStore
  by_cases h : st.storeType = "session" <;> simp [h]

/-- Writing the selected backend leaves the other backend alone. -/
theorem otherStore_putStore (st : AppState) (s : Store) :
    otherStore (putStore st s) = otherStore st := by
  unfold otherStore putStore
  by_cases h : st.storeType = "session" <;> simp [h]

/-- Writing a backend does not move the preference flag. -/
theorem storeType_putStore (st : AppState) (s : Store) :
    (putStore st s).storeType = st.storeType := by
  unfold putStore
  by_cases h : st.storeType = "session" <;> simp [h]

/-- Membership in an insertion step. -/
theorem mem_insertNote {x n : Note} : ∀ {l : List Note},
    x ∈ insertNote n l ↔ x = n ∨ x ∈ l
  | [] => by simp [insertNote]
  | m :: ms => by
    unfold insertNote
    by_cases h : m.updatedAt ≤ n.updatedAt
    · rw [if_pos h]
      simp
    · rw [if_neg h]
      simp [mem_insertNote (l := ms)]
      tauto

/-- An insertion step permutes pushing on front. -/
theorem insertNote_perm (n : Note) : ∀ l : List Note, List.Perm (insertNote n l) (n :: l)
  | [] => by simp [insertNote]
  | m :: ms => by
    unfold insertNote
    by_cases h : m.updatedAt ≤ n.updatedAt
    · rw [if_pos h]
    · rw [if_neg h]
      exact List.Perm.trans (List.Perm.cons m (insertNote_perm n ms))
        (List.Perm.swap n m ms)

/-- The stable sort permutes its input. -/
theorem sortNotes_perm : ∀ l : List Note, List.Perm (sortNotes l) l
  | [] => List.Perm.refl _
  | x :: xs => by
    unfold sortNotes
    simp only [List.foldr_cons]
    exact List.Perm.trans (insertNote_perm x (sortNotes xs))
      (List.Perm.cons x (sortNotes_perm xs))

/-- An insertion step keeps the list sorted by updatedAt descending. -/
theorem sorted_insertNote {n : Note} : ∀ {l : List Note},
    l.Pairwise (fun a b => b.updatedAt ≤ a.updatedAt) →
    (insertNote n l).Pairwise (fun a b => b.updatedAt ≤ a.updatedAt)
  | [], _ => by simp [insertNote]
  | m :: ms, h => by
    rw [List.pairwise_cons] at h
    unfold insertNote
    by_cases hle : m.updatedAt ≤ n.updatedAt
    · rw [if_pos hle]
      rw [List.pairwise_cons]
      refine ⟨?_, List.pairwise_cons.mpr h⟩
      intro x hx
      rcases List.mem_cons.mp hx with rfl | hx
      · exact hle
      · exact Nat.le_trans (h.1 x hx) hle
    · rw [if_neg hle]
      rw [List.pairwise_cons]
      constructor
      · intro x hx
        rcases mem_insertNote.mp hx with rfl | hx
        · omega
        · exact h.1 x hx
      · exact sorted_insertNote h.2

/-- The sort's output is sorted by updatedAt descending. -/
theorem sorted_sortNotes : ∀ l : List Note,
    (sortNotes l).Pairwise (fun a b => b.updatedAt ≤ a.updatedAt)
  | [] => List.Pairwise.nil
  | x :: xs => by
    unfold sortNotes
    simp only [List.foldr_cons]
    exact sorted_insertNote (sorted_sortNotes xs)

/-- Unfolding one step of the stable sort. -/
theorem sortNotes_cons (x : Note) (xs : List Note) :
    sortNotes (x :: xs) = insertNote x (sortNotes xs) := rfl

/-- An insertion step puts the new note in front of every note sharing its
updatedAt and leaves the subsequence of any other fixed updatedAt alone:
every element the insertion walks past is strictly more recent than the
inserted note. -/
theorem insertNote_filter (n : Note) (u : Nat) : ∀ l : List Note,
    (insertNote n l).filter (fun x => x.updatedAt == u)
      = if (n.updatedAt == u) = true
        then n :: l.filter (fun x => x.updatedAt == u)
        else l.filter (fun x => x.updatedAt == u)
  | [] => by
    cases h : n.updatedAt == u <;> simp [insertNote, List.filter_cons, h]
  | m :: ms => by
    unfold insertNote
    by_cases hle : m.updatedAt ≤ n.updatedAt
    · rw [if_pos hle]
      cases h : n.updatedAt == u <;> simp [List.filter_cons, h]
    · rw [if_neg hle]
      rw [List.filter_cons, List.filter_cons]
      cases hm : m.updatedAt == u
      · simp only [Bool.false_eq_true, if_false]
        rw [insertNote_filter n u ms]
      · simp only [if_true]
        cases h : n.updatedAt == u
        · rw [insertNote_filter n u ms]
          simp [h]
        · have h1 : m.updatedAt = u := by simpa using hm
          have h2 : n.updatedAt = u := by simpa using h
          omega

/-- The sort is stable: for every timestamp value, the notes carrying it
appear in the output in exactly their input order. -/
theorem sortNotes_stable (u : Nat) : ∀ l : List Note,
    (sortNotes l).filter (fun x => x.updatedAt == u)
      = l.filter (fun x => x.updatedAt == u)
  | [] => rfl
  | x :: xs => by
    rw [sortNotes_cons, insertNote_filter x u (sortNotes xs), sortNotes_stable u xs,
      List.filter_cons]

/-- A guarded filterMap is the filterMap of the filtered list. -/
theorem filterMap_if {α β : Type} (p : α → Bool) (f : α → Option β) :
    ∀ l : List α,
      (l.filterMap fun x => if p x then f x else none) = (l.filter p).filterMap f
  | [] => rfl
  | x :: l => by
    cases hp : p x
    · simp [List.filterMap_cons, List.filter_cons, hp, filterMap_if p f l]
    · cases hf : f x <;>
        simp [List.filterMap_cons, List.filter_cons, hp, hf, filterMap_if p f l]

/-- filterMap only looks at its function's values on the list's members. -/
theorem filterMap_congr_mem {α β : Type} (f g : α → Option β) :
    ∀ l : List α, (∀ x ∈ l, f x = g x) → l.filterMap f = l.filterMap g
  | [], _ => rfl
  | x :: l, h => by
    have hx := h x (by simp)
    have hl := filterMap_congr_mem f g l (fun y hy => h y (by simp [hy]))
    simp [List.filterMap_cons, hx, hl]

/-- Reading a store split in two reads the first part first. -/
theorem getItem_append (s1 s2 : Store) (k : String) :
    getItem (s1 ++ s2) k = (getItem s1 k).or (getItem s2 k) := by
  unfold getItem
  rw [List.find?_append]
  cases s1.find? (fun kv => kv.1 == k) <;> rfl

/-- Writing an absent key appends it at the end of the enumeration. -/
theorem setItem_of_absent (s : Store) (k : String) (v : Val) (h : getItem s k = none) :
    setItem s k v = s ++ [(k, v)] := by
  unfold setItem
  rw [if_neg]
  intro hany
  rw [List.any_eq_true] at hany
  obtain ⟨kv, hkv, hp⟩ := hany
  unfold getItem at h
  have hfind : s.find? (fun kv => kv.1 == k) = none := by
    cases hc : s.find? (fun kv => kv.1 == k)
    · rfl
    · rw [hc] at h
      cases h
  rw [List.find?_eq_none] at hfind
  exact hfind kv hkv hp

/-- The collection loop restricted to the namespaced entries. -/
theorem collectNotes_eq (st : AppState) :
    collectNotes st = ((getStore st).filter fun kv => hasNS kv.1).filterMap
      fun kv => loadNote st (strDrop kv.1 NS.length) := by
  unfold collectNotes
  rw [filterMap_if]

/-- A namespaced key reads the same through the namespace filter. -/
theorem getItem_filter_ns (s : Store) (k : String) :
    getItem (s.filter fun kv => hasNS kv.1) (NS ++ k) = getItem s (NS ++ k) := by
  unfold getItem
  rw [find?_filter_of_imp]
  intro x hx
  have hx1 : x.1 = NS ++ k := by simpa using hx
  rw [hx1]
  exact hasNS_app k

/-- Loading is determined by the namespaced entries of the current backend. -/
theorem loadNote_framed {st1 st2 : AppState}
    (h : ((getStore st1).filter fun kv => hasNS kv.1)
       = ((getStore st2).filter fun kv => hasNS kv.1))
    (id : String) : loadNote st1 id = loadNote st2 id := by
  unfold loadNote
  rw [← getItem_filter_ns (getStore st1), h, getItem_filter_ns]

/-- The collection loop is determined by the namespaced entries. -/
theorem collectNotes_framed {st1 st2 : AppState}
    (h : ((getStore st1).filter fun kv => hasNS kv.1)
       = ((getStore st2).filter fun kv => hasNS kv.1)) :
    collectNotes st1 = collectNotes st2 := by
  rw [collectNotes_eq, collectNotes_eq, h]
  exact filterMap_congr_mem _ _ _ (fun kv _ => loadNote_framed h _)

/-- The listing is determined by the namespaced entries. -/
theorem listNotes_framed {st1 st2 : AppState}
    (h : ((getStore st1).filter fun kv => hasNS kv.1)
       = ((getStore st2).filter fun kv => hasNS kv.1)) :
    listNotes st1 = listNotes st2 := by
  unfold listNotes
  rw [collectNotes_framed h]

/-- Folding removeItem over a batch of keys filters all of them out. -/
theorem foldl_removeItem : ∀ (R : List String) (s : Store),
    R.foldl removeItem s = s.filter fun kv => !(List.elem kv.1 R)
  | [], s => by simp
  | k :: R, s => by
    simp only [List.foldl_cons]
    rw [foldl_removeItem R (removeItem s k)]
    unfold removeItem
    rw [List.filter_filter]
    apply List.filter_congr
    intro kv _
    by_cases hk : kv.1 = k <;> by_cases hr : kv.1 ∈ R <;>
      simp [List.elem_eq_mem, hk, hr]

/-- For an entry of the store, being in the batch of namespaced keys is the
same as carrying the namespace marker. -/
theorem elem_keys_iff (s : Store) (kv : String × Val) (hkv : kv ∈ s) :
    List.elem kv.1 ((s.filter fun kv => hasNS kv.1).map fun kv => kv.1) = hasNS kv.1 := by
  cases h : hasNS kv.1
  · have hnm : kv.1 ∉ (s.filter fun kv => hasNS kv.1).map fun kv => kv.1 := by
      intro hm
      rw [List.mem_map] at hm
      obtain ⟨kv2, hkv2, he⟩ := hm
      have h2 := (List.mem_filter.mp hkv2).2
      rw [he, h] at h2
      cases h2
    simp [List.elem_eq_mem, hnm]
  · have hm : kv.1 ∈ (s.filter fun kv => hasNS kv.1).map fun kv => kv.1 :=
      List.mem_map.mpr ⟨kv, List.mem_filter.mpr ⟨hkv, h⟩, rfl⟩
    simp [List.elem_eq_mem, hm]

/-- The clear-all handler leaves exactly the entries without the marker, in
their enumeration order. -/
theorem clearAll_getStore (st : AppState) :
    getStore (clearAll st) = (getStore st).filter fun kv => !hasNS kv.1 := by
  unfold clearAll
  rw [getStore_putStore, foldl_removeItem]
  apply List.filter_congr
  intro kv hkv
  rw [elem_keys_iff _ _ hkv]

/-- Reading the state after delete: the selected backend lost the key. -/
theorem getStore_deleteNote (st : AppState) (id : String) :
    getStore (deleteNote st id) = removeItem (getStore st) (NS ++ id) := by
  unfold deleteNote
  rw [getStore_putStore]

/-- Writing the selected backend twice keeps only the second write. -/
theorem putStore_putStore (st : AppState) (s1 s2 : Store) :
    putStore (putStore st s1) s2 = putStore st s2 := by
  unfold putStore
  by_cases h : st.storeType = "session" <;> simp [h]

/-- Removing a key twice is removing it once. -/
theorem removeItem_idem (s : Store) (k : String) :
    removeItem (removeItem s k) k = removeItem s k := by
  unfold removeItem
  rw [List.filter_filter]
  apply List.filter_congr
  intro kv _
  cases h : kv.1 == k <;> simp [h]

/-- Reading a split store whose first part holds the key. -/
theorem getItem_append_left (s1 s2 : Store) (k : String)
    (h : (getItem s1 k).isSome = true) : getItem (s1 ++ s2) k = getItem s1 k := by
  rw [getItem_append]
  cases hc : getItem s1 k
  · rw [hc] at h
    cases h
  · rfl

/-- An entry's key is always readable while the entry is present. -/
theorem getItem_isSome_of_mem (s : Store) (kv : String × Val) (h : kv ∈ s) :
    (getItem s kv.1).isSome = true := by
  unfold getItem
  have : (s.find? fun kv2 => kv2.1 == kv.1).isSome = true := by
    rw [List.find?_isSome]
    exact ⟨kv, h, by simp⟩
  cases hc : s.find? fun kv2 => kv2.1 == kv.1
  · rw [hc] at this
    cases this
  · rfl

/-- Evaluated form of saveNote. -/
theorem saveNote_eval (st : AppState) (n : Note) (now : Nat) :
    saveNote st n now =
      ({ n with updatedAt := now },
       putStore st (setItem (getStore st) (NS ++ n.id)
         (Val.json { n with updatedAt := now }))) := rfl

/-- Loading the id just saved returns the saved record. -/
theorem loadNote_saveNote_self (st : AppState) (n : Note) (now : Nat) :
    loadNote (saveNote st n now).2 n.id = some { n with updatedAt := now } := by
  rw [saveNote_eval]
  unfold loadNote
  rw [getStore_putStore, getItem_setItem_self]
  rfl

/-- Evaluated form of addNote. -/
theorem addNote_eval (st : AppState) (f : AddFields) (now : Nat) (rnd : String) :
    addNote st f now rnd =
      ({ id := genId now rnd, title := jsOr f.title "Untitled",
         body := jsOr f.body "", createdAt := now, updatedAt := now },
       putStore st (setItem (getStore st) (NS ++ genId now rnd)
         (Val.json { id := genId now rnd, title := jsOr f.title "Untitled",
                     body := jsOr f.body "", createdAt := now, updatedAt := now }))) := rfl

/-- A save touches no key without the namespace marker. -/
theorem saveNote_frame (st : AppState) (n : Note) (now : Nat) (k : String)
    (h : hasNS k = false) :
    getItem (getStore (saveNote st n now).2) k = getItem (getStore st) k := by
  rw [saveNote_eval]
  simp only
  rw [getStore_putStore]
  exact getItem_setItem_ne _ _ _ _ (fun e => ns_app_ne h _ e.symm)

/-- A save leaves the unselected backend alone. -/
theorem saveNote_other (st : AppState) (n : Note) (now : Nat) :
    otherStore (saveNote st n now).2 = otherStore st := by
  rw [saveNote_eval]
  simp only
  rw [otherStore_putStore]

/-- A save leaves the preference flag alone. -/
theorem saveNote_storeType (st : AppState) (n : Note) (now : Nat) :
    ((saveNote st n now).2).storeType = st.storeType := by
  rw [saveNote_eval]
  simp only
  rw [storeType_putStore]

/-- An add touches no key without the namespace marker. -/
theorem addNote_frame (st : AppState) (f : AddFields) (now : Nat) (rnd k : String)
    (h : hasNS k = false) :
    getItem (getStore (addNote st f now rnd).2) k = getItem (getStore st) k := by
  unfold addNote
  exact saveNote_frame st _ now k h

/-- An add leaves the unselected backend alone. -/
theorem addNote_other (st : AppState) (f : AddFields) (now : Nat) (rnd : String) :
    otherStore (addNote st f now rnd).2 = otherStore st := by
  unfold addNote
  exact saveNote_other st _ now

/-- An update touches no key without the namespace marker. -/
theorem updateNote_frame (st : AppState) (id : String) (f : UpdFields) (now : Nat)
    (k : String) (h : hasNS k = false) :
    getItem (getStore (updateNote st id f now).2) k = getItem (getStore st) k := by
  unfold updateNote
  cases hl : loadNote st id
  · rfl
  · simp only
    exact saveNote_frame st _ now k h

/-- An update leaves the unselected backend alone. -/
theorem updateNote_other (st : AppState) (id : String) (f : UpdFields) (now : Nat) :
    otherStore (updateNote st id f now).2 = otherStore st := by
  unfold updateNote
  cases hl : loadNote st id
  · rfl
  · simp only
    exact saveNote_other st _ now

/-- A delete touches no key without the namespace marker. -/
theorem deleteNote_frame (st : AppState) (id k : String) (h : hasNS k = false) :
    getItem (getStore (deleteNote st id)) k = getItem (getStore st) k := by
  rw [getStore_deleteNote]
  exact getItem_removeItem_ne _ _ _ (fun e => ns_app_ne h _ e.symm)

/-- A delete leaves the unselected backend alone. -/
theorem deleteNote_other (st : AppState) (id : String) :
    otherStore (deleteNote st id) = otherStore st := by
  unfold deleteNote
  rw [otherStore_putStore]

/-- After clearing, the listing is empty. -/
theorem clearAll_listNotes (st : AppState) : listNotes (clearAll st) = [] := by
  unfold listNotes
  rw [collectNotes_eq, clearAll_getStore, List.filter_filter]
  have hnil : ((getStore st).filter fun kv => hasNS kv.1 && !hasNS kv.1) = [] := by
    rw [List.filter_eq_nil_iff]
    intro kv _
    cases h : hasNS kv.1 <;> simp [h]
  rw [hnil]
  rfl

/-- After clearing, every namespaced key reads absent. -/
theorem clearAll_getItem_ns (st : AppState) (k : String) :
    getItem (getStore (clearAll st)) (NS ++ k) = none := by
  rw [clearAll_getStore]
  unfold getItem
  have hnone : ((getStore st).filter fun kv => !hasNS kv.1).find?
      (fun kv => kv.1 == NS ++ k) = none := by
    rw [List.find?_eq_none]
    intro x hx hpx
    have hmem := List.of_mem_filter hx
    have hx1 : x.1 = NS ++ k := by simpa using hpx
    rw [hx1, hasNS_app] at hmem
    cases hmem
  rw [hnone]
  rfl

/-- Clearing keeps the value of every key without the namespace marker. -/
theorem clearAll_getItem_ne (st : AppState) (k : String) (h : hasNS k = false) :
    getItem (getStore (clearAll st)) k = getItem (getStore st) k := by
  rw [clearAll_getStore]
  unfold getItem
  rw [find?_filter_of_imp]
  intro x hx
  have hx1 : x.1 = k := by simpa using hx
  rw [hx1, h]
  rfl

/-- Clearing leaves the unselected backend alone. -/
theorem clearAll_other (st : AppState) : otherStore (clearAll st) = otherStore st := by
  unfold clearAll
  rw [otherStore_putStore]

/-- Clearing leaves the preference flag alone. -/
theorem clearAll_storeType (st : AppState) : (clearAll st).storeType = st.storeType := by
  unfold clearAll
  rw [storeType_putStore]

/-- Reading the injected state's backend. -/
theorem injectRaw_getStore (st : AppState) (k s : String)
    (hfresh : getItem (getStore st) (NS ++ k) = none) :
    getStore (injectRaw st k s) = getStore st ++ [(NS ++ k, Val.raw s)] := by
  unfold injectRaw
  rw [getStore_putStore, setItem_of_absent _ _ _ hfresh]

/-- Loading the injected corrupt key itself gives nothing. -/
theorem loadNote_injectRaw_self (st : AppState) (k s : String)
    (hfresh : getItem (getStore st) (NS ++ k) = none) :
    loadNote (injectRaw st k s) k = none := by
  unfold loadNote
  rw [injectRaw_getStore st k s hfresh, getItem_append, hfresh]
  have hone : getItem [(NS ++ k, Val.raw s)] (NS ++ k) = some (Val.raw s) := by
    unfold getItem
    rw [find?_cons_eq]
    simp
  rw [hone]
  rfl

/-- Loading, written with an explicit bind. -/
theorem loadNote_eq (st : AppState) (id : String) :
    loadNote st id = (getItem (getStore st) (NS ++ id)).bind parseNote := by
  unfold loadNote
  cases getItem (getStore st) (NS ++ id) <;> rfl

/-- Injecting a fresh corrupt entry leaves the collection loop's output
unchanged. -/
theorem collectNotes_injectRaw (st : AppState) (k s : String)
    (hfresh : getItem (getStore st) (NS ++ k) = none) :
    collectNotes (injectRaw st k s) = collectNotes st := by
  rw [collectNotes_eq, collectNotes_eq, injectRaw_getStore st k s hfresh]
  rw [List.filter_append]
  have hfe : ([(NS ++ k, Val.raw s)].filter fun kv => hasNS kv.1)
      = [(NS ++ k, Val.raw s)] := by
    rw [List.filter_cons_of_pos (by simpa using hasNS_app k)]
    rfl
  rw [hfe, List.filterMap_append]
  have hload : loadNote (injectRaw st k s)
      (strDrop ((NS ++ k, Val.raw s) : String × Val).1 NS.length) = none := by
    have hdrop : strDrop ((NS ++ k, Val.raw s) : String × Val).1 NS.length = k :=
      strDrop_app k
    rw [hdrop]
    exact loadNote_injectRaw_self st k s hfresh
  have hnew : List.filterMap
      (fun kv => loadNote (injectRaw st k s) (strDrop kv.1 NS.length))
      [(NS ++ k, Val.raw s)] = [] := by
    simp [List.filterMap_cons, hload]
  rw [hnew, List.append_nil]
  apply filterMap_congr_mem
  intro kv hkv
  have hns := (List.mem_filter.mp hkv).2
  have hmem := (List.mem_filter.mp hkv).1
  rw [loadNote_eq, loadNote_eq, hasNS_join hns, injectRaw_getStore st k s hfresh]
  rw [getItem_append_left _ _ _ (getItem_isSome_of_mem _ _ hmem)]

/-- In a well-keyed store, no record listed after a delete carries the
deleted id. -/
theorem listNotes_deleteNote (st : AppState) (id : String) (hwk : WellKeyed st) :
    ∀ r ∈ listNotes (deleteNote st id), r.id ≠ id := by
  intro r hr hrid
  have hr2 : r ∈ collectNotes (deleteNote st id) := ((sortNotes_perm _).mem_iff).mp hr
  rw [collectNotes_eq, List.mem_filterMap] at hr2
  obtain ⟨kv, hkvmem, hload⟩ := hr2
  obtain ⟨hkv, hns⟩ := List.mem_filter.mp hkvmem
  rw [getStore_deleteNote] at hkv
  obtain ⟨hkvS, hkvne⟩ := List.mem_filter.mp hkv
  have hne : kv.1 ≠ NS ++ id := by simpa using hkvne
  rw [loadNote_eq, hasNS_join hns, getStore_deleteNote,
    getItem_removeItem_ne _ _ _ hne] at hload
  cases hg : getItem (getStore st) kv.1 with
  | none =>
    rw [hg] at hload
    simp at hload
  | some v =>
    rw [hg] at hload
    unfold getItem at hg
    cases hf : (getStore st).find? fun kv2 => kv2.1 == kv.1 with
    | none =>
      rw [hf] at hg
      simp at hg
    | some kv2 =>
      rw [hf] at hg
      have hv : kv2.2 = v := by simpa using hg
      have hkv2mem := List.mem_of_find?_eq_some hf
      have hkv2key : kv2.1 = kv.1 := by simpa using List.find?_some hf
      have hwk2 := hwk kv2 hkv2mem
      cases v with
      | raw s2 =>
        rw [hv] at hwk2
        simp [parseNote] at hload
      | json n =>
        have hrn : n = r := by simpa [parseNote] using hload
        rw [hv] at hwk2
        simp only [parseNote, Option.all] at hwk2
        have hkey : kv2.1 = NS ++ n.id := by simpa using hwk2
        rw [hkv2key, hrn, hrid] at hkey
        exact hne hkey

/-- Evaluated form of updateNote on a loadable id. -/
theorem updateNote_eval (st : AppState) (id : String) (f : UpdFields) (now : Nat)
    (n : Note) (h : loadNote st id = some n) :
    updateNote st id f now =
      (Except.ok ({ assignNote n f with updatedAt := now }),
       putStore st (setItem (getStore st) (NS ++ (assignNote n f).id)
         (Val.json { assignNote n f with updatedAt := now }))) := by
  unfold updateNote
  rw [h]
  rfl

/-- Deleting the same id twice equals deleting it once. -/
theorem deleteNote_idem (st : AppState) (id : String) :
    deleteNote (deleteNote st id) id = deleteNote st id := by
  unfold deleteNote
  rw [getStore_putStore, removeItem_idem, putStore_putStore]

end Helpers

section Claims

/-- C6: updateNote on an id that the currently selected backend does not hold
(missing key, or a value treated as absent because it does not parse) fails
with the Note-not-found error and persists nothing: the returned state is the
unchanged input state, and the error value is handed to the caller. -/
theorem c6_update_notfound (st : AppState) (id : String) (f : UpdFields) (now : Nat)
    (h : loadNote st id = none) :
    updateNote st id f now = (Except.error "Note not found", st) := by
  unfold updateNote
  rw [h]

/-- Witness for C6: updating a missing id in the empty store errors and
changes nothing. -/
theorem c6_update_notfound_witness :
    loadNote stEmpty "zzz" = none ∧
    updateNote stEmpty "zzz" ⟨none, none, none, none, none⟩ 7
      = (Except.error "Note not found", stEmpty) :=
  ⟨by decide, c6_update_notfound stEmpty "zzz" ⟨none, none, none, none, none⟩ 7 (by decide)⟩

/-- C10: addNote with an empty or absent title stores and returns the title
Untitled rather than the given title, an absent body is stored as the empty
string, no add ever stores an empty title verbatim, and the stored record
equals the returned one. -/
theorem c10_add_defaults (st : AppState) (now : Nat) (rnd : String)
    (b t : Option String) :
    (addNote st ⟨some "", b⟩ now rnd).1.title = "Untitled" ∧
    (addNote st ⟨none, b⟩ now rnd).1.title = "Untitled" ∧
    (addNote st ⟨t, none⟩ now rnd).1.body = "" ∧
    (addNote st ⟨t, b⟩ now rnd).1.title ≠ "" ∧
    loadNote (addNote st ⟨t, b⟩ now rnd).2 ((addNote st ⟨t, b⟩ now rnd).1.id)
      = some (addNote st ⟨t, b⟩ now rnd).1 := by
  refine ⟨?_, ?_, ?_, ?_, ?_⟩
  · rw [addNote_eval]
    rfl
  · rw [addNote_eval]
    rfl
  · rw [addNote_eval]
    rfl
  · rw [addNote_eval]
    simp only
    cases t with
    | none => simp [jsOr]
    | some s2 =>
      by_cases hs : s2 = "" <;> simp [jsOr, hs]
  · unfold addNote
    exact loadNote_saveNote_self st _ now

/-- C3: for inputs with a nonempty title, addNote stores and returns a record
whose title and body equal the inputs, whose id is the generated one, with
createdAt and updatedAt both equal to the call's clock reading, and a
subsequent loadNote of the new id returns exactly that record. -/
theorem c3_add_roundtrip (st : AppState) (t b : String) (now : Nat) (rnd : String)
    (ht : t ≠ "") :
    (addNote st ⟨some t, some b⟩ now rnd).1.title = t ∧
    (addNote st ⟨some t, some b⟩ now rnd).1.body = b ∧
    (addNote st ⟨some t, some b⟩ now rnd).1.createdAt = now ∧
    (addNote st ⟨some t, some b⟩ now rnd).1.updatedAt = now ∧
    (addNote st ⟨some t, some b⟩ now rnd).1.id = genId now rnd ∧
    loadNote (addNote st ⟨some t, some b⟩ now rnd).2
        ((addNote st ⟨some t, some b⟩ now rnd).1.id)
      = some (addNote st ⟨some t, some b⟩ now rnd).1 := by
  refine ⟨?_, ?_, ?_, ?_, ?_, ?_⟩
  · rw [addNote_eval]
    simp [jsOr, ht]
  · rw [addNote_eval]
    simp only
    by_cases hb : b = "" <;> simp [jsOr, hb]
  · rw [addNote_eval]
  · rw [addNote_eval]
  · rw [addNote_eval]
  · unfold addNote
    exact loadNote_saveNote_self st _ now

/-- Witness for C3 at a concrete input. -/
theorem c3_add_roundtrip_witness :
    ("hello" : String) ≠ "" ∧
    ((addNote stEmpty ⟨some "hello", some "w"⟩ 4 "q").1.title = "hello" ∧
     (addNote stEmpty ⟨some "hello", some "w"⟩ 4 "q").1.body = "w" ∧
     (addNote stEmpty ⟨some "hello", some "w"⟩ 4 "q").1.createdAt = 4 ∧
     (addNote stEmpty ⟨some "hello", some "w"⟩ 4 "q").1.updatedAt = 4 ∧
     (addNote stEmpty ⟨some "hello", some "w"⟩ 4 "q").1.id = genId 4 "q" ∧
     loadNote (addNote stEmpty ⟨some "hello", some "w"⟩ 4 "q").2
         ((addNote stEmpty ⟨some "hello", some "w"⟩ 4 "q").1.id)
       = some (addNote stEmpty ⟨some "hello", some "w"⟩ 4 "q").1) :=
  ⟨by decide, c3_add_roundtrip stEmpty "hello" "w" 4 "q" (by decide)⟩

/-- C1 is refuted as stated: at a concrete store holding a record with
createdAt 1, updating with a fields value that names createdAt overwrites
the record's createdAt (Object.assign copies every named attribute), so
update does not preserve createdAt for every fields value; naming id
misbehaves the same way. -/
theorem c1_cex_createdAt_overwritten :
    loadNote stOne "i0" = some noteT ∧
    noteT.createdAt = 1 ∧
    (updateNote stOne "i0" ⟨none, none, none, some 999, none⟩ 10).1
      = Except.ok { id := "i0", title := "t", body := "b", createdAt := 999, updatedAt := 10 } :=
  ⟨by decide, by decide, rfl⟩

/-- C1 (amended): when the fields value does not name id or createdAt,
updateNote merges the named attributes into the loaded record by shallow
overwrite, preserves id and createdAt, stamps updatedAt with the call's
clock reading — strictly greater than the old updatedAt in the case that the
clock moved on — persists the result under the record's key, and returns it;
all of this holds for same-tick updates as well, only the strictness being
conditional on the clock. -/
theorem c1_update_merge (st : AppState) (id : String) (f : UpdFields) (now : Nat)
    (n : Note) (hload : loadNote st id = some n) (hid : f.id = none)
    (hca : f.createdAt = none) (hkey : n.id = id) :
    ∃ r : Note,
      (updateNote st id f now).1 = Except.ok r ∧
      r.id = n.id ∧
      r.createdAt = n.createdAt ∧
      r.title = f.title.getD n.title ∧
      r.body = f.body.getD n.body ∧
      r.updatedAt = now ∧
      (n.updatedAt < now → n.updatedAt < r.updatedAt) ∧
      loadNote (updateNote st id f now).2 id = some r := by
  rw [updateNote_eval st id f now n hload]
  refine ⟨{ assignNote n f with updatedAt := now }, rfl, ?_, ?_, rfl, rfl, rfl,
    fun h => h, ?_⟩
  · simp [assignNote, hid]
  · simp [assignNote, hca]
  · have hik : (assignNote n f).id = id := by
      simp [assignNote, hid, hkey]
    simp only
    rw [loadNote_eq, getStore_putStore, ← hik, getItem_setItem_self]
    rfl

/-- Witness for C1 (amended) at a concrete store and fields value. -/
theorem c1_update_merge_witness :
    (loadNote stOne "i0" = some noteT ∧ (⟨none, some "T2", none, none, none⟩ : UpdFields).id = none ∧
     (⟨none, some "T2", none, none, none⟩ : UpdFields).createdAt = none ∧
     noteT.id = "i0") ∧
    (∃ r : Note,
      (updateNote stOne "i0" ⟨none, some "T2", none, none, none⟩ 10).1 = Except.ok r ∧
      r.id = noteT.id ∧
      r.createdAt = noteT.createdAt ∧
      r.title = (some "T2").getD noteT.title ∧
      r.body = (none : Option String).getD noteT.body ∧
      r.updatedAt = 10 ∧
      (noteT.updatedAt < 10 → noteT.updatedAt < r.updatedAt) ∧
      loadNote (updateNote stOne "i0" ⟨none, some "T2", none, none, none⟩ 10).2 "i0" = some r) :=
  ⟨⟨by decide, by decide, by decide, by decide⟩,
    c1_update_merge stOne "i0" ⟨none, some "T2", none, none, none⟩ 10 noteT
      (by decide) (by decide) (by decide) (by decide)⟩

/-- C2 is refuted as stated: two backends holding the same two records (equal
updatedAt, distinct ids a and b) in opposite enumeration orders produce
opposite listing orders, so the tie between equal updatedAt values is kept in
enumeration order and is not broken by id: no id-determined tie order could
produce both outputs. -/
theorem c2_cex_tie_not_by_id :
    noteA.updatedAt = noteB.updatedAt ∧
    noteA.id ≠ noteB.id ∧
    listNotes stTieBA = [noteB, noteA] ∧
    listNotes stTieAB = [noteA, noteB] ∧
    listNotes stTieBA ≠ listNotes stTieAB ∧
    List.Perm (listNotes stTieBA) (listNotes stTieAB) := by
  refine ⟨by decide, by decide, by decide, by decide, by decide, ?_⟩
  have h1 : listNotes stTieBA = [noteB, noteA] := by decide
  have h2 : listNotes stTieAB = [noteA, noteB] := by decide
  rw [h1, h2]
  exact List.Perm.swap noteA noteB []

/-- C2 (amended): listNotes is sorted by updatedAt descending (most recently
touched first) and is a permutation of the records collected from the
namespaced keys in enumeration order; the sort is stable — for every
timestamp value, the tied records carrying that updatedAt appear in the
output in exactly their enumeration order — which makes repeated calls on
unchanged data deterministic, but the tie order is positional, not id-based. -/
theorem c2_list_sorted (st : AppState) (u : Nat) :
    (listNotes st).Pairwise (fun a b => b.updatedAt ≤ a.updatedAt) ∧
    List.Perm (listNotes st) (collectNotes st) ∧
    (listNotes st).filter (fun x => x.updatedAt == u)
      = (collectNotes st).filter (fun x => x.updatedAt == u) :=
  ⟨sorted_sortNotes _, sortNotes_perm _, sortNotes_stable u _⟩

/-- C4: the clear-all handler removes every namespaced record from the
currently selected backend only: afterwards the listing is empty and every
namespaced key reads absent, while every key without the namespace marker
keeps its value and the other backend and the preference flag are untouched. -/
theorem c4_clear (st : AppState) (k q : String) (hk : hasNS k = false) :
    listNotes (clearAll st) = [] ∧
    getItem (getStore (clearAll st)) (NS ++ q) = none ∧
    getItem (getStore (clearAll st)) k = getItem (getStore st) k ∧
    otherStore (clearAll st) = otherStore st ∧
    (clearAll st).storeType = st.storeType :=
  ⟨clearAll_listNotes st, clearAll_getItem_ns st q, clearAll_getItem_ne st k hk,
    clearAll_other st, clearAll_storeType st⟩

/-- Witness for C4: clearing a store with one record, one unrelated key and a
session-side record. -/
theorem c4_clear_witness :
    hasNS "unrelated" = false ∧
    (listNotes (clearAll stOne) = [] ∧
     getItem (getStore (clearAll stOne)) (NS ++ "i0") = none ∧
     getItem (getStore (clearAll stOne)) "unrelated" = getItem (getStore stOne) "unrelated" ∧
     otherStore (clearAll stOne) = otherStore stOne ∧
     (clearAll stOne).storeType = stOne.storeType) :=
  ⟨by decide, c4_clear stOne "unrelated" "i0" (by decide)⟩

/-- C5: planting a non-deserializable value under a fresh namespaced key
leaves the listing exactly as it was: the corrupt entry never appears, the
listing still succeeds and every other parseable record still appears, and
reading the corrupt id gives absent rather than an error. -/
theorem c5_corrupt_skipped (st : AppState) (k s : String)
    (hfresh : getItem (getStore st) (NS ++ k) = none) :
    listNotes (injectRaw st k s) = listNotes st ∧
    loadNote (injectRaw st k s) k = none := by
  constructor
  · unfold listNotes
    rw [collectNotes_injectRaw st k s hfresh]
  · exact loadNote_injectRaw_self st k s hfresh

/-- Witness for C5: injecting garbage text under a fresh namespaced key of a
store with one good record. -/
theorem c5_corrupt_skipped_witness :
    getItem (getStore stOne) (NS ++ "c") = none ∧
    (listNotes (injectRaw stOne "c" "garbage") = listNotes stOne ∧
     loadNote (injectRaw stOne "c" "garbage") "c" = none) :=
  ⟨by decide, c5_corrupt_skipped stOne "c" "garbage" (by decide)⟩

/-- C7: deleteNote removes the entry unconditionally: afterwards the key
reads absent, loading the id gives absent, and (in a well-keyed store) the
listing contains no record with that id; a second delete of the same id is a
no-op on the whole state, and delete is a total function, so deleting a
nonexistent id never raises. -/
theorem c7_delete (st : AppState) (id : String) (hwk : WellKeyed st) :
    loadNote (deleteNote st id) id = none ∧
    getItem (getStore (deleteNote st id)) (NS ++ id) = none ∧
    (∀ r ∈ listNotes (deleteNote st id), r.id ≠ id) ∧
    deleteNote (deleteNote st id) id = deleteNote st id := by
  refine ⟨?_, ?_, listNotes_deleteNote st id hwk, deleteNote_idem st id⟩
  · rw [loadNote_eq, getStore_deleteNote, getItem_removeItem_self]
    rfl
  · rw [getStore_deleteNote, getItem_removeItem_self]

/-- Witness for C7: deleting the only record of a well-keyed store, with an
unrelated key and a session-side record around. -/
theorem c7_delete_witness :
    WellKeyed stOne ∧
    (loadNote (deleteNote stOne "i0") "i0" = none ∧
     getItem (getStore (deleteNote stOne "i0")) (NS ++ "i0") = none ∧
     (∀ r ∈ listNotes (deleteNote stOne "i0"), r.id ≠ "i0") ∧
     deleteNote (deleteNote stOne "i0") "i0" = deleteNote stOne "i0") :=
  ⟨by decide, c7_delete stOne "i0" (by decide)⟩

/-- C8 is refuted as stated: two distinct add calls in the same millisecond
with the same random suffix generate the same id (Date.now is not monotonic
across calls within one tick), and the second add then overwrites the first
record, which disappears from the listing. -/
theorem c8_cex_id_collision :
    (addNote stEmpty ⟨some "A", some "x"⟩ 5 "zzz").1.id
      = (addNote (addNote stEmpty ⟨some "A", some "x"⟩ 5 "zzz").2
          ⟨some "B", some "y"⟩ 5 "zzz").1.id ∧
    listNotes (addNote (addNote stEmpty ⟨some "A", some "x"⟩ 5 "zzz").2
        ⟨some "B", some "y"⟩ 5 "zzz").2
      = [{ id := "5-zzz", title := "B", body := "y", createdAt := 5, updatedAt := 5 }] :=
  ⟨by decide, by decide⟩

/-- C8 (amended): generated ids are unique whenever the clock reading or the
random suffix differs between two calls: genId is injective in the pair, so
calls in different milliseconds always get distinct ids, and under rapid
successive creation within one millisecond uniqueness rests solely on the
random suffix. -/
theorem c8_genId_unique (n1 n2 : Nat) (r1 r2 : String)
    (h : genId n1 r1 = genId n2 r2) : n1 = n2 ∧ r1 = r2 :=
  genId_inj h

/-- Witness for C8 (amended) at concrete arguments. -/
theorem c8_genId_unique_witness :
    genId 3 "ab" = genId 3 "ab" ∧ ((3 : Nat) = 3 ∧ ("ab" : String) = "ab") :=
  ⟨rfl, c8_genId_unique 3 3 "ab" "ab" rfl⟩

/-- C9: every store operation works only under the sn:note: namespace of the
backend selected at call time: the writes of save, add, update, delete and
clear leave every key without the namespace marker, the whole other backend
and the preference flag unchanged, and the reads of load and list are
determined by the namespaced entries of the selected backend alone. -/
theorem c9_ns_frame (st st1 st2 : AppState) (n : Note) (f : AddFields)
    (g : UpdFields) (id rnd k : String) (now : Nat) (hk : hasNS k = false)
    (hagree : ((getStore st1).filter fun kv => hasNS kv.1)
            = ((getStore st2).filter fun kv => hasNS kv.1)) :
    getItem (getStore (saveNote st n now).2) k = getItem (getStore st) k ∧
    otherStore (saveNote st n now).2 = otherStore st ∧
    ((saveNote st n now).2).storeType = st.storeType ∧
    getItem (getStore (addNote st f now rnd).2) k = getItem (getStore st) k ∧
    otherStore (addNote st f now rnd).2 = otherStore st ∧
    getItem (getStore (updateNote st id g now).2) k = getItem (getStore st) k ∧
    otherStore (updateNote st id g now).2 = otherStore st ∧
    getItem (getStore (deleteNote st id)) k = getItem (getStore st) k ∧
    otherStore (deleteNote st id) = otherStore st ∧
    getItem (getStore (clearAll st)) k = getItem (getStore st) k ∧
    otherStore (clearAll st) = otherStore st ∧
    loadNote st1 id = loadNote st2 id ∧
    listNotes st1 = listNotes st2 :=
  ⟨saveNote_frame st n now k hk, saveNote_other st n now, saveNote_storeType st n now,
    addNote_frame st f now rnd k hk, addNote_other st f now rnd,
    updateNote_frame st id g now k hk, updateNote_other st id g now,
    deleteNote_frame st id k hk, deleteNote_other st id,
    clearAll_getItem_ne st k hk, clearAll_other st,
    loadNote_framed hagree id, listNotes_framed hagree⟩

/-- Witness for C9 at a concrete state, key and records. -/
theorem c9_ns_frame_witness :
    (hasNS "unrelated" = false ∧
     ((getStore stTieBA).filter fun kv => hasNS kv.1)
       = ((getStore stTieBA).filter fun kv => hasNS kv.1)) ∧
    (getItem (getStore (saveNote stOne noteA 9).2) "unrelated"
        = getItem (getStore stOne) "unrelated" ∧
     otherStore (saveNote stOne noteA 9).2 = otherStore stOne ∧
     ((saveNote stOne noteA 9).2).storeType = stOne.storeType ∧
     getItem (getStore (addNote stOne ⟨some "t", some "b"⟩ 9 "rr").2) "unrelated"
        = getItem (getStore stOne) "unrelated" ∧
     otherStore (addNote stOne ⟨some "t", some "b"⟩ 9 "rr").2 = otherStore stOne ∧
     getItem (getStore (updateNote stOne "i0" ⟨none, some "u", none, none, none⟩ 9).2)
        "unrelated" = getItem (getStore stOne) "unrelated" ∧
     otherStore (updateNote stOne "i0" ⟨none, some "u", none, none, none⟩ 9).2
        = otherStore stOne ∧
     getItem (getStore (deleteNote stOne "i0")) "unrelated"
        = getItem (getStore stOne) "unrelated" ∧
     otherStore (deleteNote stOne "i0") = otherStore stOne ∧
     getItem (getStore (clearAll stOne)) "unrelated"
        = getItem (getStore stOne) "unrelated" ∧
     otherStore (clearAll stOne) = otherStore stOne ∧
     loadNote stTieBA "i0" = loadNote stTieBA "i0" ∧
     listNotes stTieBA = listNotes stTieBA) :=
  ⟨⟨by decide, rfl⟩,
    c9_ns_frame stOne stTieBA stTieBA noteA ⟨some "t", some "b"⟩
      ⟨none, some "u", none, none, none⟩ "i0" "rr" "unrelated" 9 (by decide) rfl⟩

end Claims

end SNotes
